import Mathlib

/-!
Shallow embedding of the attention core of this repository, over exact real
arithmetic.  Rank-n tensors of shape (a, b, ...) are modelled as functions
Fin a → Fin b → ... → ℝ (or a generic element type where the source code is
shape manipulation only).  Row-major flattening and splitting of indices is
made explicit with Fin.divNat / Fin.modNat and the pairing function finIdx
below, matching the semantics of tf.reshape / einops.rearrange on contiguous
row-major tensors.  Shape-level behaviour of the einops rearrangements (which
ones succeed, and the shapes they produce) is embedded separately on List ℕ
shapes, so that shape claims and failure claims can be stated concretely.
-/

/-- Row-major pairing of two indices: element (i, j) of an (a, b) grid sits at
flat position i * b + j.  This is the index arithmetic of a row-major reshape
that merges two adjacent axes. -/
def finIdx {a b : ℕ} (i : Fin a) (j : Fin b) : Fin (a * b) :=
  ⟨(i : ℕ) * b + (j : ℕ), by
    calc (i : ℕ) * b + (j : ℕ) < (i : ℕ) * b + b := by
          exact Nat.add_lt_add_left j.isLt _
      _ = ((i : ℕ) + 1) * b := by ring
      _ ≤ a * b := Nat.mul_le_mul_right b i.isLt⟩

namespace MainPy

/-- MultiHeadAttention.transpose_qkv from src/main.py.  The three einops
rearrangements are, on a row-major tensor of shape (b, l, h*dk):
first split the last axis head-major into (b, l, h, dk), then transpose to
(b, h, l, dk), then merge the two leading axes into (b*h, l, dk).
Composed, the element at (n, li, ki) of the output is the element at
(n / h, li, (n % h) * dk + ki) of the input. -/
def transpose_qkv {b l h dk : ℕ} {α : Type} (X : Fin b → Fin l → Fin (h * dk) → α) :
    Fin (b * h) → Fin l → Fin dk → α :=
  fun n li ki => X n.divNat li (finIdx n.modNat ki)

/-- MultiHeadAttention.inverse_transpose_qkv from src/main.py: reshape
(b*h, l, dk) to (b, h, l, dk), transpose to (b, l, h, dk), then merge the two
trailing axes into (b, l, h*dk). -/
def inverse_transpose_qkv {b l h dk : ℕ} {α : Type}
    (X : Fin (b * h) → Fin l → Fin dk → α) :
    Fin b → Fin l → Fin (h * dk) → α :=
  fun bi li f => X (finIdx bi f.divNat) li f.modNat

end MainPy

namespace Tx

/-- MultiHeadAttention.split_heads from
src/transformerx/layers/multihead_attention.py.  The two active einops
rearrangements split the last axis head-major, (b, l, h*dk) to (b, l, h, dk),
then transpose to (b, h, l, dk).  The final flattening rearrangement
(b h) l dk is commented out in the source, so the result is rank 4. -/
def split_heads {b l h dk : ℕ} {α : Type} (X : Fin b → Fin l → Fin (h * dk) → α) :
    Fin b → Fin h → Fin l → Fin dk → α :=
  fun bi hi li ki => X bi li (finIdx hi ki)

/-- MultiHeadAttention.inverse_transpose_qkv from
src/transformerx/layers/multihead_attention.py: transpose (b, h, l, dk) back to
(b, l, h, dk), then merge the two trailing axes into (b, l, h*dk). -/
def inverse_transpose_qkv {b l h dk : ℕ} {α : Type}
    (X : Fin b → Fin h → Fin l → Fin dk → α) :
    Fin b → Fin l → Fin (h * dk) → α :=
  fun bi li f => X bi f.divNat li f.modNat

end Tx

/-- Shape-level behaviour of the einops rearrangement b l (h dk) -> b l h dk
with h bound to the given head count: it succeeds exactly when the head count
divides the last axis, and splits that axis head-major. -/
def rearrangeSplitLast (h : ℕ) : List ℕ → Option (List ℕ)
  | [b, l, d] => if h ∣ d then some [b, l, h, d / h] else none
  | _ => none

/-- Shape-level behaviour of the einops rearrangement b l h dk -> b h l dk
(swap the two middle axes). -/
def rearrangeTranspose : List ℕ → Option (List ℕ)
  | [b, l, h, dk] => some [b, h, l, dk]
  | _ => none

/-- Shape-level behaviour of the einops rearrangement b h l dk -> (b h) l dk
(merge the two leading axes). -/
def rearrangeMergeLead : List ℕ → Option (List ℕ)
  | [b, h, l, dk] => some [b * h, l, dk]
  | _ => none

namespace Tx

/-- Shape-level composition of the rearrangements performed by split_heads in
src/transformerx/layers/multihead_attention.py: split the last axis, then
transpose; the flattening step is commented out in the source. -/
def split_heads_shape (h : ℕ) (s : List ℕ) : Option (List ℕ) :=
  (rearrangeSplitLast h s).bind rearrangeTranspose

/-- Configuration record stored by MultiHeadAttention.__init__ in
src/transformerx/layers/multihead_attention.py.  The scaled field records
which DotProductAttention variant was selected by the attention argument;
it is none when the argument matched no branch (the source then leaves
self.attention unset, still without raising in __init__). -/
structure MHAConfig where
  d_model : ℕ
  num_heads : ℕ
  dropout_rate : ℝ
  use_bias : Bool
  causal_mask : Bool
  scaled : Option Bool

/-- MultiHeadAttention.__init__ from
src/transformerx/layers/multihead_attention.py.  The body only stores the
configuration and builds the projection layers; it contains no validation of
d_model against num_heads (or of anything else), so construction always
succeeds.  The Option result is the failure channel a raising constructor
would use; this constructor never uses it. -/
def mhaInit (d_model num_heads : ℕ) (dropout_rate : ℝ) (use_bias : Bool)
    (attention : Option String) (causal_mask : Bool) : Option MHAConfig :=
  some { d_model := d_model, num_heads := num_heads, dropout_rate := dropout_rate,
         use_bias := use_bias, causal_mask := causal_mask,
         scaled :=
           if attention = some "scaled_dotproduct" ∨ attention = none then some true
           else if attention = some "dotproduct" then some false
           else none }

end Tx

/-- Softmax along the last axis, one row: tf.nn.softmax.  Over exact reals the
numerically stable max-subtracted form computed by TensorFlow coincides with
exp / sum of exp, since the common factor exp(-max) cancels. -/
noncomputable def softmaxRow {k : ℕ} (v : Fin k → ℝ) : Fin k → ℝ :=
  fun j => Real.exp (v j) / ∑ i, Real.exp (v i)

namespace MainPy

/-- Shape-level composition of the three rearrangements performed by
transpose_qkv in src/main.py: split the last axis, transpose, merge the two
leading axes. -/
def transpose_qkv_shape (h : ℕ) (s : List ℕ) : Option (List ℕ) :=
  ((rearrangeSplitLast h s).bind rearrangeTranspose).bind rearrangeMergeLead

/-- Inner helper _sequence_mask of masked_softmax in src/main.py, in the
rank-2 branch it is called on: entry (i, j) is kept when the float comparison
j < valid_len i holds (both sides are nonnegative integers cast to float, so
this is the integer comparison), and replaced by the given value otherwise. -/
def sequenceMask {r k : ℕ} (X : Fin r → Fin k → ℝ) (valid_len : Fin r → ℕ)
    (value : ℝ) : Fin r → Fin k → ℝ :=
  fun i j => if (j : ℕ) < valid_len i then X i j else value

/-- Row-major flattening tf.reshape(X, (-1, shape[-1])) of a rank-3 tensor
used by masked_softmax in src/main.py. -/
def reshape3to2 {b q k : ℕ} (X : Fin b → Fin q → Fin k → ℝ) :
    Fin (b * q) → Fin k → ℝ :=
  fun n c => X n.divNat n.modNat c

/-- Row-major tf.reshape back to the original rank-3 shape used by
masked_softmax in src/main.py. -/
def reshape2to3 {b q k : ℕ} (X : Fin (b * q) → Fin k → ℝ) :
    Fin b → Fin q → Fin k → ℝ :=
  fun bi qi c => X (finIdx bi qi) c

/-- tf.repeat(valid_lens, repeats=shape[1]) on a rank-1 valid_lens: row
bi*q + qi of the flattened score tensor gets the valid length of batch
element bi. -/
def repeatLens {b : ℕ} (q : ℕ) (lens : Fin b → ℕ) : Fin (b * q) → ℕ :=
  fun n => lens n.divNat

/-- masked_softmax from src/main.py, with valid_lens either absent or the
rank-1 case (one valid length per batch element).  With valid_lens present the
source flattens the scores to rank 2, repeats the lengths once per query row,
replaces masked entries by -1e6 via _sequence_mask, reshapes back, and applies
softmax along the last axis. -/
noncomputable def maskedSoftmax {b q k : ℕ} (X : Fin b → Fin q → Fin k → ℝ)
    (valid_lens : Option (Fin b → ℕ)) : Fin b → Fin q → Fin k → ℝ :=
  match valid_lens with
  | none => fun bi qi => softmaxRow (X bi qi)
  | some lens => fun bi qi =>
      softmaxRow
        (reshape2to3 (sequenceMask (reshape3to2 X) (repeatLens q lens)
          (-(10 ^ 6 : ℝ))) bi qi)

end MainPy

namespace Spec

/-- Modelled from the spec: the stochastic regularizer (tf.keras.layers.Dropout,
an external collaborator per the spec) is the identity in inference mode; in
training mode it zeroes the entries rejected by a random keep mask and rescales
the kept ones.  The keep mask stands for the regularizer's randomness source. -/
noncomputable def dropout {n q kv : ℕ} (rate : ℝ) (training : Bool)
    (keep : Fin n → Fin q → Fin kv → Bool)
    (W : Fin n → Fin q → Fin kv → ℝ) : Fin n → Fin q → Fin kv → ℝ :=
  if training then
    fun b i j => if keep b i j then W b i j / (1 - rate) else 0
  else W

/-- Modelled from the spec: LookAheadMask (imported by dot_product_attention.py
from transformerx.layers.masks, which is not part of the sources) masks
position (i, j) whenever j > i, replacing the score by a large negative
sentinel. -/
noncomputable def lookAheadMask {n q kv : ℕ} (scores : Fin n → Fin q → Fin kv → ℝ) :
    Fin n → Fin q → Fin kv → ℝ :=
  fun b i j => if (i : ℕ) < (j : ℕ) then -(10 ^ 9 : ℝ) else scores b i j

/-- Modelled from the spec: PaddingMask (imported by dot_product_attention.py
from transformerx.layers.masks, not part of the sources) marks the key
positions flagged by an external padding indicator as invalid for every query,
replacing their scores by a large negative sentinel. -/
noncomputable def paddingMask {n q kv : ℕ} (pad : Fin kv → Bool)
    (scores : Fin n → Fin q → Fin kv → ℝ) : Fin n → Fin q → Fin kv → ℝ :=
  fun b i j => if pad j then -(10 ^ 9 : ℝ) else scores b i j

end Spec

namespace Tx

/-- Raw compatibility scores tf.matmul(queries, keys, transpose_b=True) of
DotProductAttention.call in src/transformerx/layers/dot_product_attention.py. -/
noncomputable def rawScores {n q kv d : ℕ} (Q : Fin n → Fin q → Fin d → ℝ)
    (K : Fin n → Fin kv → Fin d → ℝ) : Fin n → Fin q → Fin kv → ℝ :=
  fun b i j => ∑ t, Q b i t * K b j t

/-- Score computation of DotProductAttention.call in
src/transformerx/layers/dot_product_attention.py, lines 134-138: the raw
scores, divided elementwise by sqrt(d_model) — d_model being the last
dimension of the queries, cast to the queries' (floating-point) dtype — when
self.scaled is set. -/
noncomputable def scores {n q kv d : ℕ} (scaled : Bool)
    (Q : Fin n → Fin q → Fin d → ℝ) (K : Fin n → Fin kv → Fin d → ℝ) :
    Fin n → Fin q → Fin kv → ℝ :=
  if scaled then fun b i j => rawScores Q K b i j / Real.sqrt ((d : ℕ) : ℝ)
  else rawScores Q K

/-- DotProductAttention.call from
src/transformerx/layers/dot_product_attention.py: raw scores, optional
scaling, optional causal (look-ahead) and padding masks, softmax along the
last axis (the attention_mask argument is ignored by the current code), then
dropout and the weighted sum with the values.  Returns the pair
(attention_output, attention_weights); the stored weights are the pre-dropout
softmax output. -/
noncomputable def dpaCall {n q kv d dv : ℕ} (scaled causal padding : Bool)
    (rate : ℝ) (training : Bool) (keep : Fin n → Fin q → Fin kv → Bool)
    (pad : Fin kv → Bool)
    (Q : Fin n → Fin q → Fin d → ℝ) (K : Fin n → Fin kv → Fin d → ℝ)
    (V : Fin n → Fin kv → Fin dv → ℝ) :
    (Fin n → Fin q → Fin dv → ℝ) × (Fin n → Fin q → Fin kv → ℝ) :=
  let s1 := scores scaled Q K
  let s2 := if causal then Spec.lookAheadMask s1 else s1
  let s3 := if padding then Spec.paddingMask pad s2 else s2
  let w : Fin n → Fin q → Fin kv → ℝ := fun b i => softmaxRow (s3 b i)
  (fun b i c => ∑ j, Spec.dropout rate training keep w b i j * V b j c, w)

end Tx

namespace MainPy

/-- Window-mask branch of DotProductAttention.call in src/main.py.  The scores
of shape (n, q, kv) are reshaped to (n // (num_windows*num_heads), num_windows,
num_heads, q, kv) — tf.reshape raises unless the element counts match, and the
Python floor division raises when num_windows*num_heads is 0 — the window mask
(num_windows, q, kv) is broadcast-added over the group and head axes, and the
result is reshaped back.  On the row-major layout the flat batch index b lands
in window (b % (num_windows*num_heads)) / num_heads. -/
noncomputable def applyWindowMask {n q kv : ℕ} (nh nw : ℕ)
    (scores : Fin n → Fin q → Fin kv → ℝ)
    (wm : Fin nw → Fin q → Fin kv → ℝ) : Option (Fin n → Fin q → Fin kv → ℝ) :=
  if h : 0 < nw * nh ∧ n / (nw * nh) * (nw * nh) * q * kv = n * q * kv then
    some (fun b i j => scores b i j +
      wm ⟨(b : ℕ) % (nw * nh) / nh,
        Nat.div_lt_of_lt_mul (by
          rw [Nat.mul_comm nw nh] at h ⊢
          exact Nat.mod_lt _ h.1)⟩ i j)
  else none

/-- DotProductAttention.call from src/main.py: scores are the batched product
of queries with transposed keys, always divided by sqrt(d) with d the last
dimension of the queries cast to float32; an optional window mask is
broadcast-added through the grouped reshape (an error — none — when the
reshape cannot preserve the element count); masked_softmax with the optional
valid lengths; dropout; then the weighted sum with the values. -/
noncomputable def dpaCall {n q kv d dv : ℕ} (nh : ℕ) (rate : ℝ)
    (training : Bool) (keep : Fin n → Fin q → Fin kv → Bool)
    (Q : Fin n → Fin q → Fin d → ℝ) (K : Fin n → Fin kv → Fin d → ℝ)
    (V : Fin n → Fin kv → Fin dv → ℝ)
    (valid_lens : Option (Fin n → ℕ))
    (window_mask : Option ((nw : ℕ) × (Fin nw → Fin q → Fin kv → ℝ))) :
    Option (Fin n → Fin q → Fin dv → ℝ) :=
  let scores : Fin n → Fin q → Fin kv → ℝ :=
    fun b i j => (∑ t, Q b i t * K b j t) / Real.sqrt ((d : ℕ) : ℝ)
  let scoresOpt : Option (Fin n → Fin q → Fin kv → ℝ) :=
    match window_mask with
    | none => some scores
    | some wm => applyWindowMask nh wm.1 scores wm.2
  scoresOpt.map fun sc =>
    let w := maskedSoftmax sc valid_lens
    fun b i c => ∑ j, Spec.dropout rate training keep w b i j * V b j c

end MainPy

theorem finIdx_divNat {a b : ℕ} (i : Fin a) (j : Fin b) :
    (finIdx i j).divNat = i := by
  apply Fin.ext
  show ((i : ℕ) * b + (j : ℕ)) / b = (i : ℕ)
  rw [Nat.mul_comm, Nat.mul_add_div j.pos, Nat.div_eq_of_lt j.isLt, Nat.add_zero]

theorem finIdx_modNat {a b : ℕ} (i : Fin a) (j : Fin b) :
    (finIdx i j).modNat = j := by
  apply Fin.ext
  show ((i : ℕ) * b + (j : ℕ)) % b = (j : ℕ)
  rw [Nat.mul_comm, Nat.mul_add_mod, Nat.mod_eq_of_lt j.isLt]

theorem finIdx_divNat_modNat {a b : ℕ} (n : Fin (a * b)) :
    finIdx n.divNat n.modNat = n := by
  apply Fin.ext
  show (n : ℕ) / b * b + (n : ℕ) % b = (n : ℕ)
  rw [Nat.mul_comm]
  exact Nat.div_add_mod (n : ℕ) b

theorem MainPy.inverse_transpose_transpose_qkv {b l h dk : ℕ} {α : Type}
    (X : Fin b → Fin l → Fin (h * dk) → α) :
    inverse_transpose_qkv (transpose_qkv X) = X := by
  funext bi li f
  simp only [inverse_transpose_qkv, transpose_qkv, finIdx_divNat, finIdx_modNat,
    finIdx_divNat_modNat]

theorem Tx.inverse_transpose_split_heads {b l h dk : ℕ} {α : Type}
    (X : Fin b → Fin l → Fin (h * dk) → α) :
    inverse_transpose_qkv (split_heads X) = X := by
  funext bi li f
  simp only [inverse_transpose_qkv, split_heads, finIdx_divNat_modNat]

/-- C1: for every tensor of shape (batch, seq, d_model) with d_model = heads *
d_k (d_model divisible by num_heads), merging heads after splitting them
returns the original tensor unchanged, both for the transformerx pair
split_heads / inverse_transpose_qkv and for the main.py pair transpose_qkv /
inverse_transpose_qkv. -/
theorem C1_split_merge_roundtrip :
    (∀ (b l h dk : ℕ) (α : Type) (X : Fin b → Fin l → Fin (h * dk) → α),
      Tx.inverse_transpose_qkv (Tx.split_heads X) = X) ∧
    (∀ (b l h dk : ℕ) (α : Type) (X : Fin b → Fin l → Fin (h * dk) → α),
      MainPy.inverse_transpose_qkv (MainPy.transpose_qkv X) = X) :=
  ⟨fun _ _ _ _ _ X => Tx.inverse_transpose_split_heads X,
   fun _ _ _ _ _ X => MainPy.inverse_transpose_transpose_qkv X⟩

/-- C2 counterexample: on a (2, 3, 8) input with 4 heads, the head-split
operation split_heads of src/transformerx/layers/multihead_attention.py
produces shape (2, 4, 3, 2), not the flat shape (2*4, 3, 8/4) = (8, 3, 2)
the claim states for the head-split operation. -/
theorem C2_counterexample :
    Tx.split_heads_shape 4 [2, 3, 8] = some [2, 4, 3, 2] ∧
    Tx.split_heads_shape 4 [2, 3, 8] ≠ some [2 * 4, 3, 8 / 4] := by
  constructor
  · decide
  · decide

/-- C2 (amended): for every input shape (b, l, h*dk) with h > 0 heads, the
main.py head-split transpose_qkv produces the flat shape (b*h, l, dk) through
the intermediate shapes (b, l, h, dk) and (b, h, l, dk); the transformerx
split_heads performs the same split and transpose but omits the final
flattening, stopping at (b, h, l, dk). -/
theorem C2_split_shapes (b l h dk : ℕ) (hh : 0 < h) :
    rearrangeSplitLast h [b, l, h * dk] = some [b, l, h, dk] ∧
    rearrangeTranspose [b, l, h, dk] = some [b, h, l, dk] ∧
    rearrangeMergeLead [b, h, l, dk] = some [b * h, l, dk] ∧
    MainPy.transpose_qkv_shape h [b, l, h * dk] = some [b * h, l, dk] ∧
    Tx.split_heads_shape h [b, l, h * dk] = some [b, h, l, dk] := by
  have hsplit : rearrangeSplitLast h [b, l, h * dk] = some [b, l, h, dk] := by
    simp [rearrangeSplitLast, Dvd.intro dk rfl, Nat.mul_div_cancel_left dk hh]
  refine ⟨hsplit, rfl, rfl, ?_, ?_⟩
  · simp [MainPy.transpose_qkv_shape, hsplit, rearrangeTranspose, rearrangeMergeLead]
  · simp [Tx.split_heads_shape, hsplit, rearrangeTranspose]

/-- C2 witness: the amended shape law at b = 2, l = 3, h = 4, dk = 2. -/
theorem C2_split_shapes_witness :
    rearrangeSplitLast 4 [2, 3, 4 * 2] = some [2, 3, 4, 2] ∧
    rearrangeTranspose [2, 3, 4, 2] = some [2, 4, 3, 2] ∧
    rearrangeMergeLead [2, 4, 3, 2] = some [2 * 4, 3, 2] ∧
    MainPy.transpose_qkv_shape 4 [2, 3, 4 * 2] = some [2 * 4, 3, 2] ∧
    Tx.split_heads_shape 4 [2, 3, 4 * 2] = some [2, 4, 3, 2] :=
  C2_split_shapes 2 3 4 2 (by decide)

/-- C7 counterexample: constructing the transformerx MultiHeadAttention with
d_model = 7 and num_heads = 2 succeeds (the constructor performs no
divisibility check), although 2 does not divide 7 — so an invalid
configuration does not fail fast at construction time. -/
theorem C7_counterexample :
    (Tx.mhaInit 7 2 0 false (some "scaled_dotproduct") false).isSome = true ∧
    ¬ (2 ∣ 7) := by
  exact ⟨rfl, by decide⟩

/-- C7 (amended): for every configuration with num_heads not dividing d_model,
the transformerx MultiHeadAttention constructor still succeeds — the
divisibility invariant is not checked at construction — and the violation
surfaces only at call time, when the einops rearrangement inside split_heads
fails to divide the last axis into num_heads equal parts. -/
theorem C7_no_construction_check (d h : ℕ) (rate : ℝ) (bias : Bool)
    (attn : Option String) (cm : Bool) (b l : ℕ) (hnd : ¬ h ∣ d) :
    (Tx.mhaInit d h rate bias attn cm).isSome = true ∧
    Tx.split_heads_shape h [b, l, d] = none := by
  refine ⟨rfl, ?_⟩
  simp [Tx.split_heads_shape, rearrangeSplitLast, hnd]

/-- C7 witness: the amended statement at d_model = 7, num_heads = 2 on a
(1, 5, 7) input shape. -/
theorem C7_no_construction_check_witness :
    (Tx.mhaInit 7 2 0 false none false).isSome = true ∧
    Tx.split_heads_shape 2 [1, 5, 7] = none :=
  C7_no_construction_check 7 2 0 false none false 1 5 (by decide)

theorem MainPy.maskedEntry_eq {b q k : ℕ} (X : Fin b → Fin q → Fin k → ℝ)
    (lens : Fin b → ℕ) (v : ℝ) (bi : Fin b) (qi : Fin q) (c : Fin k) :
    MainPy.reshape2to3
      (MainPy.sequenceMask (MainPy.reshape3to2 X) (MainPy.repeatLens q lens) v)
      bi qi c
    = if (c : ℕ) < lens bi then X bi qi c else v := by
  simp only [MainPy.reshape2to3, MainPy.sequenceMask, MainPy.reshape3to2,
    MainPy.repeatLens, finIdx_divNat, finIdx_modNat]

theorem MainPy.maskedSoftmax_some_eq {b q k : ℕ} (X : Fin b → Fin q → Fin k → ℝ)
    (lens : Fin b → ℕ) (bi : Fin b) (qi : Fin q) :
    MainPy.maskedSoftmax X (some lens) bi qi
    = softmaxRow
        (fun c : Fin k => if (c : ℕ) < lens bi then X bi qi c else -(10 ^ 6 : ℝ)) := by
  have hrow :
      MainPy.reshape2to3
        (MainPy.sequenceMask (MainPy.reshape3to2 X) (MainPy.repeatLens q lens)
          (-(10 ^ 6 : ℝ))) bi qi
      = fun c : Fin k => if (c : ℕ) < lens bi then X bi qi c else -(10 ^ 6 : ℝ) :=
    funext fun c => MainPy.maskedEntry_eq X lens (-(10 ^ 6 : ℝ)) bi qi c
  show softmaxRow _ = _
  rw [hrow]

theorem softmaxRow_sum_one {k : ℕ} (hk : 0 < k) (v : Fin k → ℝ) :
    ∑ j, softmaxRow v j = 1 := by
  have hne : (Finset.univ : Finset (Fin k)).Nonempty := ⟨⟨0, hk⟩, Finset.mem_univ _⟩
  have hD : 0 < ∑ i, Real.exp (v i) :=
    Finset.sum_pos (fun i _ => Real.exp_pos _) hne
  simp only [softmaxRow]
  rw [← Finset.sum_div, div_self hD.ne']

/-- C4 counterexample: on a (1, 1, 2) score tensor whose single row is fully
masked (valid length 0), the masked_softmax weights sum to exactly 1 — the
uniform distribution 1/2, 1/2 — not to a value close to but not exactly 0. -/
theorem C4_counterexample :
    (∑ j, MainPy.maskedSoftmax (fun (_ : Fin 1) (_ : Fin 1) (_ : Fin 2) => (0 : ℝ))
      (some fun _ => 0) 0 0 j) = 1 ∧
    MainPy.maskedSoftmax (fun (_ : Fin 1) (_ : Fin 1) (_ : Fin 2) => (0 : ℝ))
      (some fun _ => 0) 0 0 0 = 1 / 2 := by
  have he := MainPy.maskedSoftmax_some_eq
    (fun (_ : Fin 1) (_ : Fin 1) (_ : Fin 2) => (0 : ℝ)) (fun _ => 0) 0 0
  have hx : Real.exp (-(10 ^ 6 : ℝ)) ≠ 0 := (Real.exp_pos _).ne'
  constructor
  · rw [show (∑ j, MainPy.maskedSoftmax
        (fun (_ : Fin 1) (_ : Fin 1) (_ : Fin 2) => (0 : ℝ))
        (some fun _ => 0) 0 0 j)
      = ∑ j, softmaxRow
          (fun c : Fin 2 => if (c : ℕ) < 0 then (0 : ℝ) else -(10 ^ 6 : ℝ)) j by
        rw [he]]
    simp only [softmaxRow, Fin.sum_univ_two, Fin.isValue,
      Nat.not_lt_zero, if_false]
    field_simp
  · rw [show MainPy.maskedSoftmax
        (fun (_ : Fin 1) (_ : Fin 1) (_ : Fin 2) => (0 : ℝ))
        (some fun _ => 0) 0 0 0
      = softmaxRow
          (fun c : Fin 2 => if (c : ℕ) < 0 then (0 : ℝ) else -(10 ^ 6 : ℝ)) 0 by
        rw [he]]
    simp only [softmaxRow, Fin.sum_univ_two, Fin.isValue,
      Nat.not_lt_zero, if_false]
    rw [div_eq_div_iff (by positivity) (by norm_num)]
    ring

/-- C4 (amended): for every score tensor and rank-1 valid lengths, every row of
the masked_softmax output sums to exactly 1 — including fully masked rows
(valid length 0), whose weights form the exactly uniform distribution 1/k,
not a tiny-valued distribution summing close to 0. -/
theorem C4_row_sums (b q k : ℕ) (X : Fin b → Fin q → Fin k → ℝ)
    (lens : Fin b → ℕ) (bi : Fin b) (qi : Fin q) (hk : 0 < k) :
    (∑ j, MainPy.maskedSoftmax X (some lens) bi qi j = 1) ∧
    (lens bi = 0 → ∀ j, MainPy.maskedSoftmax X (some lens) bi qi j = 1 / (k : ℝ)) := by
  constructor
  · rw [MainPy.maskedSoftmax_some_eq]
    exact softmaxRow_sum_one hk _
  · intro h0 j
    rw [MainPy.maskedSoftmax_some_eq]
    have hm : (fun c : Fin k => if (c : ℕ) < lens bi then X bi qi c else -(10 ^ 6 : ℝ))
        = fun _ => -(10 ^ 6 : ℝ) := by
      funext c
      rw [h0]
      simp
    rw [hm]
    have hs : (∑ _i : Fin k, Real.exp (-(10 ^ 6 : ℝ)))
        = (k : ℝ) * Real.exp (-(10 ^ 6 : ℝ)) := by
      simp [Finset.sum_const, Finset.card_univ, nsmul_eq_mul]
    simp only [softmaxRow, hs]
    have hk0 : (0 : ℝ) < (k : ℝ) := by exact_mod_cast hk
    rw [div_eq_div_iff (by positivity) hk0.ne']
    ring

/-- C4 witness: the amended row-sum law on a (1, 1, 2) score tensor with a
fully masked row: the weights sum to 1, and each equals 1/2. -/
theorem C4_row_sums_witness :
    (∑ j, MainPy.maskedSoftmax (fun (_ : Fin 1) (_ : Fin 1) (_ : Fin 2) => (3 : ℝ))
      (some fun _ => 0) 0 0 j = 1) ∧
    MainPy.maskedSoftmax (fun (_ : Fin 1) (_ : Fin 1) (_ : Fin 2) => (3 : ℝ))
      (some fun _ => 0) 0 0 1 = 1 / (2 : ℝ) :=
  ⟨(C4_row_sums 1 1 2 (fun _ _ _ => 3) (fun _ => 0) 0 0 (by decide)).1,
   (C4_row_sums 1 1 2 (fun _ _ _ => 3) (fun _ => 0) 0 0 (by decide)).2 rfl 1⟩

/-- C9: masked_softmax is independent of the score values at masked positions:
two score tensors that agree at every position with column index below the
row's valid length produce identical outputs, because _sequence_mask replaces
masked entries by the sentinel rather than combining them. -/
theorem C9_masked_value_independence (b q k : ℕ)
    (X Y : Fin b → Fin q → Fin k → ℝ) (lens : Fin b → ℕ)
    (h : ∀ (bi : Fin b) (qi : Fin q) (c : Fin k),
      (c : ℕ) < lens bi → X bi qi c = Y bi qi c) :
    MainPy.maskedSoftmax X (some lens) = MainPy.maskedSoftmax Y (some lens) := by
  funext bi qi
  rw [MainPy.maskedSoftmax_some_eq, MainPy.maskedSoftmax_some_eq]
  have hrow : (fun c : Fin k => if (c : ℕ) < lens bi then X bi qi c else -(10 ^ 6 : ℝ))
      = fun c : Fin k => if (c : ℕ) < lens bi then Y bi qi c else -(10 ^ 6 : ℝ) := by
    funext c
    by_cases hc : (c : ℕ) < lens bi
    · simp only [hc, if_true]
      exact h bi qi c hc
    · simp only [hc, if_false]
  rw [hrow]

/-- C9 witness: two (1, 1, 2) score tensors that differ only in the masked
column 1 (valid length 1) give identical masked_softmax outputs. -/
theorem C9_masked_value_independence_witness :
    MainPy.maskedSoftmax
      (fun (_ : Fin 1) (_ : Fin 1) (c : Fin 2) => if (c : ℕ) = 0 then (1 : ℝ) else 5)
      (some fun _ => 1)
    = MainPy.maskedSoftmax
      (fun (_ : Fin 1) (_ : Fin 1) (c : Fin 2) => if (c : ℕ) = 0 then (1 : ℝ) else 9)
      (some fun _ => 1) :=
  C9_masked_value_independence 1 1 2 _ _ _ (by
    intro bi qi c hc
    have hc0 : (c : ℕ) = 0 := by omega
    simp [hc0])

theorem softmaxRow_le_of_mem {k : ℕ} (v : Fin k → ℝ) (c j0 : Fin k) :
    softmaxRow v c ≤ Real.exp (v c - v j0) := by
  have hD : Real.exp (v j0) ≤ ∑ i, Real.exp (v i) :=
    Finset.single_le_sum (fun i _ => (Real.exp_pos (v i)).le) (Finset.mem_univ j0)
  calc softmaxRow v c
      = Real.exp (v c) / ∑ i, Real.exp (v i) := rfl
    _ ≤ Real.exp (v c) / Real.exp (v j0) := by
        gcongr
    _ = Real.exp (v c - v j0) := (Real.exp_sub _ _).symm

/-- C3 counterexample: the claim fails without a bound on the score values and
for zero valid lengths.  First input: a (1, 1, 2) score tensor with both
scores equal to -3e6 and valid length 1; the masked column 1 (score replaced
by the larger sentinel -1e6) receives weight above 1/2 after softmax, and the
unmasked column sums to below 1/2.  Second input: valid length 0 over a
(1, 1, 2) row of zeros; the columns below the valid length sum to 0, not
approximately 1. -/
theorem C3_counterexample :
    (1 / 2 : ℝ) < MainPy.maskedSoftmax
      (fun (_ : Fin 1) (_ : Fin 1) (_ : Fin 2) => -(3 * 10 ^ 6 : ℝ))
      (some fun _ => 1) 0 0 1 ∧
    (∑ c ∈ Finset.univ.filter fun c : Fin 2 => (c : ℕ) < 1,
      MainPy.maskedSoftmax
        (fun (_ : Fin 1) (_ : Fin 1) (_ : Fin 2) => -(3 * 10 ^ 6 : ℝ))
        (some fun _ => 1) 0 0 c) < 1 / 2 ∧
    (∑ c ∈ Finset.univ.filter fun c : Fin 2 => (c : ℕ) < 0,
      MainPy.maskedSoftmax (fun (_ : Fin 1) (_ : Fin 1) (_ : Fin 2) => (0 : ℝ))
        (some fun _ => 0) 0 0 c) = 0 := by
  have he := MainPy.maskedSoftmax_some_eq
    (fun (_ : Fin 1) (_ : Fin 1) (_ : Fin 2) => -(3 * 10 ^ 6 : ℝ)) (fun _ => 1) 0 0
  have hlt : Real.exp (-3000000 : ℝ) < Real.exp (-1000000 : ℝ) :=
    Real.exp_lt_exp.mpr (by norm_num)
  have hp3 : (0 : ℝ) < Real.exp (-3000000 : ℝ) := Real.exp_pos _
  have hp1 : (0 : ℝ) < Real.exp (-1000000 : ℝ) := Real.exp_pos _
  refine ⟨?_, ?_, ?_⟩
  · rw [he]
    show (1 / 2 : ℝ) < softmaxRow _ 1
    simp only [softmaxRow, Fin.sum_univ_two]
    norm_num
    rw [lt_div_iff₀ (by positivity)]
    linarith
  · rw [show (∑ c ∈ Finset.univ.filter fun c : Fin 2 => (c : ℕ) < 1,
        MainPy.maskedSoftmax
          (fun (_ : Fin 1) (_ : Fin 1) (_ : Fin 2) => -(3 * 10 ^ 6 : ℝ))
          (some fun _ => 1) 0 0 c)
      = ∑ c ∈ Finset.univ.filter fun c : Fin 2 => (c : ℕ) < 1,
          softmaxRow
            (fun c : Fin 2 => if (c : ℕ) < 1 then -(3 * 10 ^ 6 : ℝ)
              else -(10 ^ 6 : ℝ)) c by rw [he]]
    rw [Finset.sum_filter]
    simp only [softmaxRow, Fin.sum_univ_two]
    norm_num
    rw [div_lt_iff₀ (by positivity)]
    linarith
  · rw [show (Finset.univ.filter fun c : Fin 2 => (c : ℕ) < 0)
      = (∅ : Finset (Fin 2)) by decide]
    exact Finset.sum_empty

/-- C3 (amended): for score tensors whose entries are at least -1e5 (far above
the sentinel) and a batch element with valid length L satisfying
1 ≤ L ≤ seq_kv (the spec's ValidLengths invariant), after valid-length masking
and softmax normalization: every masked position is set to exactly -1e6 before
softmax, every weight at column index ≥ L is at most exp(-1e6 + 1e5) — a
quantity below 1e-5, hence approximately 0 — and the weights at columns < L
sum to at least 1 - k * exp(-1e6 + 1e5), hence approximately 1. -/
theorem C3_valid_length_masking (b q k : ℕ) (X : Fin b → Fin q → Fin k → ℝ)
    (lens : Fin b → ℕ) (bi : Fin b) (qi : Fin q)
    (hB : ∀ (bj : Fin b) (qj : Fin q) (c : Fin k), -(10 ^ 5 : ℝ) ≤ X bj qj c)
    (hL1 : 1 ≤ lens bi) (hLk : lens bi ≤ k) :
    (∀ c : Fin k, lens bi ≤ (c : ℕ) →
      MainPy.reshape2to3 (MainPy.sequenceMask (MainPy.reshape3to2 X)
        (MainPy.repeatLens q lens) (-(10 ^ 6 : ℝ))) bi qi c = -(10 ^ 6 : ℝ)) ∧
    (∀ c : Fin k, lens bi ≤ (c : ℕ) →
      MainPy.maskedSoftmax X (some lens) bi qi c
        ≤ Real.exp (-(10 ^ 6 : ℝ) + 10 ^ 5)) ∧
    Real.exp (-(10 ^ 6 : ℝ) + 10 ^ 5) < 1 / 10 ^ 5 ∧
    1 - (k : ℝ) * Real.exp (-(10 ^ 6 : ℝ) + 10 ^ 5)
      ≤ ∑ c ∈ Finset.univ.filter fun c : Fin k => (c : ℕ) < lens bi,
          MainPy.maskedSoftmax X (some lens) bi qi c := by
  have hk0 : 0 < k := lt_of_lt_of_le hL1 hLk
  have hmask : ∀ c : Fin k, lens bi ≤ (c : ℕ) →
      MainPy.maskedSoftmax X (some lens) bi qi c
        ≤ Real.exp (-(10 ^ 6 : ℝ) + 10 ^ 5) := by
    intro c hc
    rw [MainPy.maskedSoftmax_some_eq]
    have hv := softmaxRow_le_of_mem
      (fun c : Fin k => if (c : ℕ) < lens bi then X bi qi c else -(10 ^ 6 : ℝ))
      c ⟨0, hk0⟩
    refine hv.trans (Real.exp_le_exp.mpr ?_)
    have h1 : (if (c : ℕ) < lens bi then X bi qi c else -(10 ^ 6 : ℝ))
        = -(10 ^ 6 : ℝ) := if_neg (by omega)
    have h2 : (if ((⟨0, hk0⟩ : Fin k) : ℕ) < lens bi then X bi qi ⟨0, hk0⟩
        else -(10 ^ 6 : ℝ)) = X bi qi ⟨0, hk0⟩ := if_pos (by simpa using hL1)
    rw [h1, h2]
    have h3 := hB bi qi ⟨0, hk0⟩
    linarith
  have hnum : Real.exp (-(10 ^ 6 : ℝ) + 10 ^ 5) < 1 / 10 ^ 5 := by
    have h9 : (-(10 ^ 6 : ℝ) + 10 ^ 5) = -(900000 : ℝ) := by norm_num
    rw [h9, Real.exp_neg, show (1 : ℝ) / 10 ^ 5 = ((10 : ℝ) ^ 5)⁻¹ from one_div _]
    have h1 : (900000 : ℝ) + 1 ≤ Real.exp (900000 : ℝ) := Real.add_one_le_exp _
    exact inv_lt_inv_of_lt (by positivity) (by linarith)
  have hsum1 : ∑ c, MainPy.maskedSoftmax X (some lens) bi qi c = 1 := by
    rw [MainPy.maskedSoftmax_some_eq]
    exact softmaxRow_sum_one hk0 _
  have hsb : ∑ c ∈ Finset.univ.filter (fun c : Fin k => ¬ (c : ℕ) < lens bi),
      MainPy.maskedSoftmax X (some lens) bi qi c
      ≤ (k : ℝ) * Real.exp (-(10 ^ 6 : ℝ) + 10 ^ 5) := by
    have hcard : (Finset.univ.filter (fun c : Fin k => ¬ (c : ℕ) < lens bi)).card ≤ k :=
      le_of_le_of_eq (Finset.card_filter_le _ _) (by simp)
    calc ∑ c ∈ Finset.univ.filter (fun c : Fin k => ¬ (c : ℕ) < lens bi),
          MainPy.maskedSoftmax X (some lens) bi qi c
        ≤ (Finset.univ.filter (fun c : Fin k => ¬ (c : ℕ) < lens bi)).card
            • Real.exp (-(10 ^ 6 : ℝ) + 10 ^ 5) :=
          Finset.sum_le_card_nsmul _ _ _
            (fun c hcf => hmask c
              (by have h4 := (Finset.mem_filter.mp hcf).2; omega))
      _ = ((Finset.univ.filter (fun c : Fin k => ¬ (c : ℕ) < lens bi)).card : ℝ)
            * Real.exp (-(10 ^ 6 : ℝ) + 10 ^ 5) := nsmul_eq_mul _ _
      _ ≤ (k : ℝ) * Real.exp (-(10 ^ 6 : ℝ) + 10 ^ 5) :=
          mul_le_mul_of_nonneg_right (by exact_mod_cast hcard)
            (Real.exp_pos _).le
  have hsplit := Finset.sum_filter_add_sum_filter_not Finset.univ
    (fun c : Fin k => (c : ℕ) < lens bi)
    (fun c => MainPy.maskedSoftmax X (some lens) bi qi c)
  refine ⟨?_, hmask, hnum, ?_⟩
  · intro c hc
    rw [MainPy.maskedEntry_eq]
    exact if_neg (by omega)
  · linarith

/-- C3 witness: the amended masking law on a (1, 1, 2) zero score tensor with
valid length 1, instantiated at the masked column 1. -/
theorem C3_valid_length_masking_witness :
    MainPy.reshape2to3 (MainPy.sequenceMask
      (MainPy.reshape3to2 (fun (_ : Fin 1) (_ : Fin 1) (_ : Fin 2) => (0 : ℝ)))
      (MainPy.repeatLens 1 fun _ => 1) (-(10 ^ 6 : ℝ))) 0 0 1 = -(10 ^ 6 : ℝ) ∧
    MainPy.maskedSoftmax (fun (_ : Fin 1) (_ : Fin 1) (_ : Fin 2) => (0 : ℝ))
      (some fun _ => 1) 0 0 1 ≤ Real.exp (-(10 ^ 6 : ℝ) + 10 ^ 5) ∧
    Real.exp (-(10 ^ 6 : ℝ) + 10 ^ 5) < 1 / 10 ^ 5 ∧
    1 - ((2 : ℕ) : ℝ) * Real.exp (-(10 ^ 6 : ℝ) + 10 ^ 5)
      ≤ ∑ c ∈ Finset.univ.filter fun c : Fin 2 => (c : ℕ) < 1,
          MainPy.maskedSoftmax (fun (_ : Fin 1) (_ : Fin 1) (_ : Fin 2) => (0 : ℝ))
            (some fun _ => 1) 0 0 c := by
  have h := C3_valid_length_masking 1 1 2 (fun _ _ _ => 0) (fun _ => 1) 0 0
    (fun _ _ _ => by norm_num) (by norm_num) (by norm_num)
  exact ⟨h.1 1 (by norm_num), h.2.1 1 (by norm_num), h.2.2.1, h.2.2.2⟩

/-- C5: for all queries and keys, the scores DotProductAttention.call computes
with scaling enabled equal, elementwise, the scores computed with scaling
disabled divided by sqrt(d), d being the last dimension of the queries cast to
the queries' floating-point type before the square root. -/
theorem C5_scaling_invariant (n q kv d : ℕ)
    (Q : Fin n → Fin q → Fin d → ℝ) (K : Fin n → Fin kv → Fin d → ℝ)
    (b : Fin n) (i : Fin q) (j : Fin kv) :
    Tx.scores true Q K b i j = Tx.scores false Q K b i j / Real.sqrt (d : ℝ) := by
  simp [Tx.scores]

/-- C6: in inference mode (training flag off, so the stochastic regularizer is
the identity), the attention computation gives identical outputs and identical
attention-weight tensors on identical inputs, whatever the regularizer's
randomness (the keep masks) would have been — for both the transformerx
DotProductAttention.call and the main.py DotProductAttention.call. -/
theorem C6_inference_determinism (n q kv d dv : ℕ)
    (scaled causal padding : Bool) (rate : ℝ)
    (keep₁ keep₂ : Fin n → Fin q → Fin kv → Bool) (pad : Fin kv → Bool)
    (nh : ℕ) (Q : Fin n → Fin q → Fin d → ℝ) (K : Fin n → Fin kv → Fin d → ℝ)
    (V : Fin n → Fin kv → Fin dv → ℝ) (valid_lens : Option (Fin n → ℕ))
    (window_mask : Option ((nw : ℕ) × (Fin nw → Fin q → Fin kv → ℝ))) :
    Tx.dpaCall scaled causal padding rate false keep₁ pad Q K V
      = Tx.dpaCall scaled causal padding rate false keep₂ pad Q K V ∧
    MainPy.dpaCall nh rate false keep₁ Q K V valid_lens window_mask
      = MainPy.dpaCall nh rate false keep₂ Q K V valid_lens window_mask := by
  constructor
  · simp [Tx.dpaCall, Spec.dropout]
  · simp [MainPy.dpaCall, Spec.dropout]

/-- C8: when a window mask is supplied whose leading dimension num_windows
violates the divisibility constraint — num_windows * num_heads does not divide
the flat batch dimension n of the scores — the main.py attention call errors
(the tf.reshape to the grouped shape cannot preserve the element count) rather
than performing a lossy reshape. -/
theorem C8_window_mask_divisibility (n q kv d dv : ℕ) (nh nw : ℕ) (rate : ℝ)
    (training : Bool) (keep : Fin n → Fin q → Fin kv → Bool)
    (Q : Fin n → Fin q → Fin d → ℝ) (K : Fin n → Fin kv → Fin d → ℝ)
    (V : Fin n → Fin kv → Fin dv → ℝ) (valid_lens : Option (Fin n → ℕ))
    (wm : Fin nw → Fin q → Fin kv → ℝ)
    (hq : 0 < q) (hkv : 0 < kv) (hdvd : ¬ (nw * nh ∣ n)) :
    MainPy.dpaCall nh rate training keep Q K V valid_lens (some ⟨nw, wm⟩)
      = none := by
  have hnone : ∀ sc : Fin n → Fin q → Fin kv → ℝ,
      MainPy.applyWindowMask nh nw sc wm = none := by
    intro sc
    rw [MainPy.applyWindowMask, dif_neg]
    rintro ⟨hpos, heq⟩
    apply hdvd
    have h1 : n / (nw * nh) * (nw * nh) * q = n * q :=
      Nat.eq_of_mul_eq_mul_right hkv heq
    have h2 : n / (nw * nh) * (nw * nh) = n :=
      Nat.eq_of_mul_eq_mul_right hq h1
    exact h2 ▸ dvd_mul_left (nw * nh) (n / (nw * nh))
  simp [MainPy.dpaCall, hnone]

/-- C8 witness: a window mask with num_windows = 1 on scores with flat batch
dimension 3 and num_heads = 2 (1 * 2 does not divide 3) makes the call
error. -/
theorem C8_window_mask_divisibility_witness :
    @MainPy.dpaCall 3 1 1 1 1 2 0 false (fun _ _ _ => true)
      (fun _ _ _ => 0) (fun _ _ _ => 0) (fun _ _ _ => 0)
      none (some ⟨1, fun _ _ _ => 0⟩) = none :=
  C8_window_mask_divisibility 3 1 1 1 1 2 1 0 false (fun _ _ _ => true)
    (fun _ _ _ => 0) (fun _ _ _ => 0) (fun _ _ _ => 0) none (fun _ _ _ => 0)
    (by decide) (by decide) (by decide)

/-- C10: with no masking (no valid lengths, no window mask, causal and padding
flags off), scaling enabled, and inference mode, the main.py implementation
and the transformerx implementation of dot-product attention compute the same
output tensor softmax(Q Kᵀ / sqrt d) V for all queries, keys, and values of
compatible shapes. -/
theorem C10_implementations_agree (n q kv d dv : ℕ) (nh : ℕ) (rate : ℝ)
    (keep : Fin n → Fin q → Fin kv → Bool) (pad : Fin kv → Bool)
    (Q : Fin n → Fin q → Fin d → ℝ) (K : Fin n → Fin kv → Fin d → ℝ)
    (V : Fin n → Fin kv → Fin dv → ℝ) :
    MainPy.dpaCall nh rate false keep Q K V none none
      = some (Tx.dpaCall true false false rate false keep pad Q K V).1 := by
  simp [MainPy.dpaCall, Tx.dpaCall, Tx.scores, Tx.rawScores,
    MainPy.maskedSoftmax, Spec.dropout]
